import Mathlib

/-!
# Translation bot: dispatch loop, translation client, acknowledgment

A shallow embedding of `internal/bot/bot.go`.

* Go strings are Lean strings (the valid UTF-8 byte strings).
* The collaborators of `Bot` (`socketmodeClient`, `slackClient`, `httpClient`)
  are interfaces in the source.  Here each one is a record of functions that
  thread an arbitrary collaborator state `σ`, so a collaborator may answer
  differently on every call.
* Every call on a collaborator is appended to a trace of `Effect`s.
* `encoding/json`, `net/url` and the constants of `socketmode`, `slackevents`
  and `whatlanggo` are library code; the parts `bot.go` relies on are modelled
  below, next to the function that uses them.
-/

namespace TranslatorBot

/-! ## Errors -/

/-- Go `error` values that reach `bot.go`. -/
inductive Error where
  /-- Any error value handed back by a collaborator (`Do`, `PostMessage`). -/
  | transport (msg : String)
  /-- The value `io.EOF`. -/
  | EOF
  /-- The value `io.ErrUnexpectedEOF`. -/
  | ErrUnexpectedEOF
  /-- A `*json.SyntaxError`. -/
  | SyntaxError (msg : String)
  /-- A `*json.UnmarshalTypeError`; `value` is the JSON kind that did not fit. -/
  | UnmarshalTypeError (value : String)
  deriving DecidableEq, Repr

deriving instance DecidableEq for Except

/-! ## `encoding/json`: reading one value -/

/-- JSON values as `encoding/json` scans them.  Numbers keep their literal. -/
inductive Json where
  | null
  | bool (b : Bool)
  | num (lit : String)
  | str (s : String)
  | arr (elems : List Json)
  | obj (members : List (String × Json))

/-- The scanner's `isSpace`. -/
def isSpace (c : Char) : Bool :=
  c = ' ' || c = '\t' || c = '\r' || c = '\n'

/-- Drop leading JSON white space. -/
def skipSpace : List Char → List Char
  | [] => []
  | c :: cs => if isSpace c then skipSpace cs else c :: cs

/-- Hexadecimal digits accepted in a `\u` escape. -/
def isHex (c : Char) : Bool :=
  ('0' ≤ c && c ≤ '9') || ('a' ≤ c && c ≤ 'f') || ('A' ≤ c && c ≤ 'F')

/-- Value of a hexadecimal digit. -/
def hexVal (c : Char) : Nat :=
  if '0' ≤ c && c ≤ '9' then c.toNat - 48
  else if 'a' ≤ c && c ≤ 'f' then c.toNat - 87
  else if 'A' ≤ c && c ≤ 'F' then c.toNat - 55
  else 0

/-- Scanner states inside a string literal: `stateInString`,
`stateInStringEsc`, and `stateInStringEscU`..`stateInStringEscU123`
(`escU n`: `n` hexadecimal digits are still expected). -/
inductive StrState where
  | plain
  | esc
  | escU (left : Nat)

/-- Scan a string literal after its opening quote.  Returns the raw characters
between the quotes and the input after the closing quote. -/
def scanString : StrState → List Char → Except Error (List Char × List Char)
  | _, [] => .error .ErrUnexpectedEOF
  | .plain, c :: cs =>
    if c = '"' then .ok ([], cs)
    else if c = '\\' then
      match scanString .esc cs with
      | .ok (raw, rest) => .ok (c :: raw, rest)
      | .error e => .error e
    else if c.toNat < 0x20 then .error (.SyntaxError "invalid character in string literal")
    else
      match scanString .plain cs with
      | .ok (raw, rest) => .ok (c :: raw, rest)
      | .error e => .error e
  | .esc, c :: cs =>
    if c = 'b' || c = 'f' || c = 'n' || c = 'r' || c = 't' || c = '\\' || c = '/' || c = '"' then
      match scanString .plain cs with
      | .ok (raw, rest) => .ok (c :: raw, rest)
      | .error e => .error e
    else if c = 'u' then
      match scanString (.escU 4) cs with
      | .ok (raw, rest) => .ok (c :: raw, rest)
      | .error e => .error e
    else .error (.SyntaxError "invalid character in string escape code")
  | .escU n, c :: cs =>
    if isHex c then
      match scanString (if n ≤ 1 then .plain else .escU (n - 1)) cs with
      | .ok (raw, rest) => .ok (c :: raw, rest)
      | .error e => .error e
    else .error (.SyntaxError "invalid character in \\u hexadecimal character escape")

/-- The rune `unicode.ReplacementChar`. -/
def replacementChar : Char := Char.ofNat 0xFFFD

/-- Emit the rune of a `\uXXXX` escape with value `rr`, given a pending high
surrogate `hi` from the escape right before it (`utf16.DecodeRune`). -/
def emitU (hi : Option Nat) (rr : Nat) : List Char × Option Nat :=
  let fresh : List Char × Option Nat :=
    if 0xD800 ≤ rr ∧ rr < 0xDC00 then ([], some rr)
    else if 0xDC00 ≤ rr ∧ rr < 0xE000 then ([replacementChar], none)
    else ([Char.ofNat rr], none)
  match hi with
  | none => fresh
  | some h =>
    if 0xDC00 ≤ rr ∧ rr < 0xE000 then
      ([Char.ofNat ((h - 0xD800) * 0x400 + (rr - 0xDC00) + 0x10000)], none)
    else (replacementChar :: fresh.1, fresh.2)

/-- A pending high surrogate that found no partner becomes U+FFFD. -/
def flushHi : Option Nat → List Char
  | none => []
  | some _ => [replacementChar]

/-- The character a one-letter escape stands for. -/
def unescape (c : Char) : Char :=
  if c = 'b' then Char.ofNat 8
  else if c = 'f' then Char.ofNat 12
  else if c = 'n' then '\n'
  else if c = 'r' then '\r'
  else if c = 't' then '\t'
  else c

/-- The decoder's `unquote` on the raw characters of a scanned literal. -/
def unquote : Option Nat → List Char → List Char
  | hi, [] => flushHi hi
  | hi, [c] => flushHi hi ++ [c]
  | hi, c :: d :: cs =>
    if c = '\\' then
      if d = 'u' then
        match cs with
        | h1 :: h2 :: h3 :: h4 :: cs4 =>
          let rr := hexVal h1 * 4096 + hexVal h2 * 256 + hexVal h3 * 16 + hexVal h4
          (emitU hi rr).1 ++ unquote (emitU hi rr).2 cs4
        | _ => flushHi hi
      else flushHi hi ++ unescape d :: unquote none cs
    else flushHi hi ++ c :: unquote none (d :: cs)

/-- Longest run of decimal digits at the front of the input. -/
def spanDigits : List Char → List Char × List Char
  | [] => ([], [])
  | c :: cs =>
    if c.isDigit then ((c :: (spanDigits cs).1), (spanDigits cs).2) else ([], c :: cs)

/-- Integer part of a number (scanner states `stateNeg`, `state0`, `state1`). -/
def scanInt : List Char → Except Error (List Char × List Char)
  | [] => .error .ErrUnexpectedEOF
  | c :: cs =>
    if c = '0' then .ok ([c], cs)
    else if c.isDigit then .ok (c :: (spanDigits cs).1, (spanDigits cs).2)
    else .error (.SyntaxError "invalid character in numeric literal")

/-- Optional fraction (scanner states `stateDot`, `stateDot0`). -/
def scanFrac : List Char → Except Error (List Char × List Char)
  | [] => .ok ([], [])
  | c :: cs =>
    if c = '.' then
      match cs with
      | [] => .error .ErrUnexpectedEOF
      | d :: ds =>
        if d.isDigit then .ok (c :: d :: (spanDigits ds).1, (spanDigits ds).2)
        else .error (.SyntaxError "invalid character after decimal point in numeric literal")
    else .ok ([], c :: cs)

/-- Digits of an exponent (scanner states `stateESign`, `stateE0`). -/
def scanExpDigits : List Char → Except Error (List Char × List Char)
  | [] => .error .ErrUnexpectedEOF
  | d :: ds =>
    if d.isDigit then .ok (d :: (spanDigits ds).1, (spanDigits ds).2)
    else .error (.SyntaxError "invalid character in exponent of numeric literal")

/-- Optional exponent (scanner state `stateE` and the two above). -/
def scanExp : List Char → Except Error (List Char × List Char)
  | [] => .ok ([], [])
  | c :: cs =>
    if c = 'e' || c = 'E' then
      match cs with
      | [] => .error .ErrUnexpectedEOF
      | s :: ss =>
        if s = '+' || s = '-' then
          match scanExpDigits ss with
          | .ok (ds, rest) => .ok (c :: s :: ds, rest)
          | .error e => .error e
        else
          match scanExpDigits (s :: ss) with
          | .ok (ds, rest) => .ok (c :: ds, rest)
          | .error e => .error e
    else .ok ([], c :: cs)

/-- Scan a number literal; the input starts at its `-` or first digit. -/
def scanNumber (cs : List Char) : Except Error (List Char × List Char) :=
  let signed : List Char × List Char :=
    match cs with
    | c :: rest => if c = '-' then ([c], rest) else ([], cs)
    | [] => ([], [])
  match scanInt signed.2 with
  | .error e => .error e
  | .ok (i, r1) =>
    match scanFrac r1 with
    | .error e => .error e
    | .ok (f, r2) =>
      match scanExp r2 with
      | .error e => .error e
      | .ok (x, r3) => .ok (signed.1 ++ i ++ f ++ x, r3)

/-- Scan the remaining letters of `true`, `false` or `null`. -/
def scanLiteral : List Char → List Char → Except Error (List Char)
  | [], cs => .ok cs
  | _ :: _, [] => .error .ErrUnexpectedEOF
  | e :: es, c :: cs =>
    if c = e then scanLiteral es cs
    else .error (.SyntaxError "invalid character in literal")

/-- The scanner's `maxNestingDepth`. -/
def maxNestingDepth : Nat := 10000

/-- What the parser is reading: one value, the rest of an array (elements read
so far), or the rest of an object (members read so far). -/
inductive Mode where
  | value
  | elements (acc : List Json)
  | members (acc : List (String × Json))

/-- Recursive-descent reading of one JSON value from the front of the input,
following the scanner's grammar.  `depth` is the number of open arrays and
objects.  The first argument bounds the recursion; `none` means the bound was
too small, which `parseFuel` excludes (`parse_total`, `parse_fuel_more`). -/
def parse : Nat → Mode → Nat → List Char → Option (Except Error (Json × List Char))
  | 0, _, _, _ => none
  | fuel + 1, .value, depth, cs =>
    match skipSpace cs with
    | [] => some (.error .ErrUnexpectedEOF)
    | c :: rest =>
      if c = '{' then
        if maxNestingDepth ≤ depth then some (.error (.SyntaxError "exceeded max depth"))
        else
          match skipSpace rest with
          | [] => some (.error .ErrUnexpectedEOF)
          | c1 :: rest1 =>
            if c1 = '}' then some (.ok (.obj [], rest1))
            else parse fuel (.members []) (depth + 1) (c1 :: rest1)
      else if c = '[' then
        if maxNestingDepth ≤ depth then some (.error (.SyntaxError "exceeded max depth"))
        else
          match skipSpace rest with
          | [] => some (.error .ErrUnexpectedEOF)
          | c1 :: rest1 =>
            if c1 = ']' then some (.ok (.arr [], rest1))
            else parse fuel (.elements []) (depth + 1) (c1 :: rest1)
      else if c = '"' then
        match scanString .plain rest with
        | .error e => some (.error e)
        | .ok (raw, rest1) => some (.ok (.str (String.mk (unquote none raw)), rest1))
      else if c = '-' || c.isDigit then
        match scanNumber (c :: rest) with
        | .error e => some (.error e)
        | .ok (lit, rest1) => some (.ok (.num (String.mk lit), rest1))
      else if c = 't' then
        match scanLiteral ['r', 'u', 'e'] rest with
        | .error e => some (.error e)
        | .ok rest1 => some (.ok (.bool true, rest1))
      else if c = 'f' then
        match scanLiteral ['a', 'l', 's', 'e'] rest with
        | .error e => some (.error e)
        | .ok rest1 => some (.ok (.bool false, rest1))
      else if c = 'n' then
        match scanLiteral ['u', 'l', 'l'] rest with
        | .error e => some (.error e)
        | .ok rest1 => some (.ok (.null, rest1))
      else some (.error (.SyntaxError "invalid character looking for beginning of value"))
  | fuel + 1, .elements acc, depth, cs =>
    match parse fuel .value depth cs with
    | none => none
    | some (.error e) => some (.error e)
    | some (.ok (v, rest)) =>
      match skipSpace rest with
      | [] => some (.error .ErrUnexpectedEOF)
      | c :: rest1 =>
        if c = ',' then parse fuel (.elements (acc ++ [v])) depth rest1
        else if c = ']' then some (.ok (.arr (acc ++ [v]), rest1))
        else some (.error (.SyntaxError "invalid character after array element"))
  | fuel + 1, .members acc, depth, cs =>
    match skipSpace cs with
    | [] => some (.error .ErrUnexpectedEOF)
    | c :: rest =>
      if c = '"' then
        match scanString .plain rest with
        | .error e => some (.error e)
        | .ok (raw, rest1) =>
          match skipSpace rest1 with
          | [] => some (.error .ErrUnexpectedEOF)
          | c1 :: rest2 =>
            if c1 = ':' then
              match parse fuel .value depth rest2 with
              | none => none
              | some (.error e) => some (.error e)
              | some (.ok (v, rest3)) =>
                match skipSpace rest3 with
                | [] => some (.error .ErrUnexpectedEOF)
                | c2 :: rest4 =>
                  if c2 = ',' then
                    parse fuel (.members (acc ++ [(String.mk (unquote none raw), v)])) depth rest4
                  else if c2 = '}' then
                    some (.ok (.obj (acc ++ [(String.mk (unquote none raw), v)]), rest4))
                  else some (.error (.SyntaxError "invalid character after object key:value pair"))
            else some (.error (.SyntaxError "invalid character after object key"))
      else some (.error (.SyntaxError "invalid character looking for beginning of object key string"))

/-- Recursion bound that `parse` never exhausts on an input of this length. -/
def parseFuel (cs : List Char) : Nat := 2 * cs.length + 1

/-- Recursion bound needed by `parse` in a given mode. -/
def fuelNeeded : Mode → List Char → Nat
  | .value, cs => 2 * cs.length + 1
  | _, cs => 2 * cs.length + 2

/-- The decoder's `readValue` followed by the scan of the value: the first JSON
value of the body.  Whatever follows that value is left unread.  An empty or
all-blank body is `io.EOF`.  The branch `none` is never taken (`parse_total`). -/
def readValue (body : String) : Except Error Json :=
  match skipSpace body.toList with
  | [] => .error .EOF
  | _ :: _ =>
    match parse (parseFuel body.toList) .value 0 body.toList with
    | some (.ok (v, _)) => .ok v
    | some (.error e) => .error e
    | none => .error (.SyntaxError "exceeded max depth")

/-! ## `encoding/json`: storing the value into `PapagoResponse` -/

/-- The innermost anonymous struct of `PapagoResponse`. -/
structure PapagoResult where
  /-- Field with tag `json:"translatedText"`. -/
  Text : String
  deriving DecidableEq, Repr

/-- The anonymous struct of the field `Message`. -/
structure PapagoMessage where
  Result : PapagoResult
  deriving DecidableEq, Repr

/-- PapagoResponse holds a subset of the fields received in translation
responses from Papago. -/
structure PapagoResponse where
  Message : PapagoMessage
  deriving DecidableEq, Repr

/-- The value `new(PapagoResponse)` points to. -/
def PapagoResponse.zero : PapagoResponse := ⟨⟨⟨""⟩⟩⟩

/-- The decoder's `foldRune`, on the runes that fold to an ASCII letter: the
lower-case letters, U+017F (long s) and U+212A (Kelvin sign).  Every other
rune folds to a rune that is not an ASCII letter, and the field names of
`PapagoResponse` are ASCII letters, so leaving those runes alone changes no
comparison made here. -/
def foldRune (c : Char) : Char :=
  if 'a' ≤ c && c ≤ 'z' then Char.ofNat (c.toNat - 32)
  else if c = Char.ofNat 0x17F then 'S'
  else if c = Char.ofNat 0x212A then 'K'
  else c

/-- The decoder's `foldName`. -/
def foldName (s : String) : String := String.mk (s.toList.map foldRune)

/-- Field lookup of the decoder for a struct with the single field `name`:
exact match first, then match of the folded names. -/
def fieldMatches (name key : String) : Bool :=
  key = name || foldName key = foldName name

/-- The `Value` of the `UnmarshalTypeError` raised for a JSON value. -/
def jsonKind : Json → String
  | .null => "null"
  | .bool _ => "bool"
  | .num _ => "number"
  | .str _ => "string"
  | .arr _ => "array"
  | .obj _ => "object"

/-- The decoder state that matters: the struct being filled and the first
error saved by `saveError`. -/
structure decodeState where
  r : PapagoResponse
  savedError : Option Error
  deriving DecidableEq, Repr

/-- The first error is kept, decoding goes on. -/
def decodeState.saveError (d : decodeState) (e : Error) : decodeState :=
  match d.savedError with
  | none => { d with savedError := some e }
  | some _ => d

/-- Store a JSON value into the string field `Text`: a string is stored,
`null` leaves the field alone, anything else is a type error. -/
def storeText (v : Json) (d : decodeState) : decodeState :=
  match v with
  | .str s => { d with r := ⟨⟨⟨s⟩⟩⟩ }
  | .null => d
  | other => d.saveError (.UnmarshalTypeError (jsonKind other))

/-- Store a JSON value into a struct whose only field is `name`: an object
stores each member whose key matches the field, in order, and skips the other
members; `null` leaves the struct alone; anything else is a type error. -/
def storeStruct (name : String) (field : Json → decodeState → decodeState)
    (v : Json) (d : decodeState) : decodeState :=
  match v with
  | .obj ms => ms.foldl (fun d kv => if fieldMatches name kv.1 then field kv.2 d else d) d
  | .null => d
  | other => d.saveError (.UnmarshalTypeError (jsonKind other))

/-- The decoder's `unmarshal` into a fresh `PapagoResponse`. -/
def unmarshal (v : Json) : Except Error PapagoResponse :=
  let d := storeStruct "Message" (storeStruct "Result" (storeStruct "translatedText" storeText))
    v ⟨PapagoResponse.zero, none⟩
  match d.savedError with
  | some e => .error e
  | none => .ok d.r

/-- The call `json.NewDecoder(resp.Body).Decode(r)` with `r := new(PapagoResponse)`. -/
def Decode (body : String) : Except Error PapagoResponse :=
  match readValue body with
  | .error e => .error e
  | .ok v => unmarshal v

/-! ## `net/url`: form values -/

/-- UTF-8 bytes of a rune. -/
def utf8 (c : Char) : List Nat :=
  let n := c.toNat
  if n < 0x80 then [n]
  else if n < 0x800 then [0xC0 + n / 64, 0x80 + n % 64]
  else if n < 0x10000 then [0xE0 + n / 4096, 0x80 + n / 64 % 64, 0x80 + n % 64]
  else [0xF0 + n / 262144, 0x80 + n / 4096 % 64, 0x80 + n / 64 % 64, 0x80 + n % 64]

/-- The function `shouldEscape` in mode `encodeQueryComponent`: only letters,
digits and `-`, `_`, `.`, `~` pass unescaped. -/
def shouldEscape (b : Nat) : Bool :=
  !((97 ≤ b && b ≤ 122) || (65 ≤ b && b ≤ 90) || (48 ≤ b && b ≤ 57)
    || b = 45 || b = 95 || b = 46 || b = 126)

/-- Digit `n` of `upperhex`. -/
def upperhex (n : Nat) : Char :=
  if n < 10 then Char.ofNat (48 + n) else Char.ofNat (55 + n)

/-- Escape one byte. -/
def escapeByte (b : Nat) : List Char :=
  if shouldEscape b then
    if b = 32 then ['+'] else ['%', upperhex (b / 16), upperhex (b % 16)]
  else [Char.ofNat b]

/-- The function `url.QueryEscape`. -/
def QueryEscape (s : String) : String :=
  String.mk ((s.toList.flatMap utf8).flatMap escapeByte)

/-- The type `url.Values`, a map from key to values: one entry per key. -/
structure Values where
  entries : List (String × List String)
  deriving DecidableEq, Repr

/-- The empty map `url.Values{}`. -/
def Values.empty : Values := ⟨[]⟩

/-- Replace the values of a key in a list of entries. -/
def setEntry : List (String × List String) → String → String → List (String × List String)
  | [], key, value => [(key, [value])]
  | (k, vs) :: rest, key, value =>
    if k = key then (k, [value]) :: rest else (k, vs) :: setEntry rest key value

/-- The method `Values.Set`: replaces the values of the key. -/
def Values.Set (v : Values) (key value : String) : Values := ⟨setEntry v.entries key value⟩

/-- Go's `<` on strings: byte-wise, which on UTF-8 text is the lexicographic
order of the code points. -/
def keyLess (a b : String) : Bool := decide (a.toList < b.toList)

/-- Insert an entry into a list of entries sorted by key. -/
def insertByKey (e : String × List String) :
    List (String × List String) → List (String × List String)
  | [] => [e]
  | x :: xs => if keyLess e.1 x.1 then e :: x :: xs else x :: insertByKey e xs

/-- Entries sorted by key. -/
def sortByKey : List (String × List String) → List (String × List String)
  | [] => []
  | e :: es => insertByKey e (sortByKey es)

/-- The method `Values.Encode`: `key=value` pairs, escaped, sorted by key,
joined by `&`. -/
def Values.Encode (v : Values) : String :=
  "&".intercalate
    ((sortByKey v.entries).flatMap fun e => e.2.map fun x => QueryEscape e.1 ++ "=" ++ QueryEscape x)

/-! ## Collaborators -/

/-- The struct `http.Request`, with the parts `translate` sets. -/
structure HTTPRequest where
  Method : String
  URL : String
  /-- Header lines in the order of the `Header.Add` calls, keys as the source
  writes them. -/
  Header : List (String × String)
  /-- The bytes the body reader delivers. -/
  Body : String
  deriving DecidableEq, Repr

/-- The struct `http.Response`: its status code and the bytes its body reader
delivers up to the end of the stream. -/
structure HTTPResponse where
  StatusCode : Int
  Body : String
  deriving DecidableEq, Repr

/-- The struct `socketmode.Request` of an envelope. -/
structure Request where
  Type_ : String
  EnvelopeID : String
  deriving DecidableEq, Repr

/-- The options `bot.go` passes to `PostMessage`. -/
inductive MsgOption where
  /-- The option `slack.MsgOptionText(text, escape)`. -/
  | MsgOptionText (text : String) (escape : Bool)
  /-- The option `slack.MsgOptionTS(ts)`: the thread the message is posted in. -/
  | MsgOptionTS (ts : String)
  deriving DecidableEq, Repr

/-- The interface `socketmodeClient`.  `Run` is not called by `Process`. -/
structure socketmodeClient (σ : Type) where
  Ack : σ → Request → σ

/-- The interface `slackClient`. -/
structure slackClient (σ : Type) where
  PostMessage : σ → String → List MsgOption → (String × String × Option Error) × σ

/-- The interface `httpClient`. -/
structure httpClient (σ : Type) where
  Do : σ → HTTPRequest → Except Error HTTPResponse × σ

/-- The type `whatlanggo.Lang`. -/
abbrev Lang := Int

/-- The struct `whatlanggo.Info`; `Process` reads `Lang` only. -/
structure Info where
  Lang : Lang

/-- The package `whatlanggo` as `bot.go` uses it: the function `Detect` and
the constant `Kor`. -/
structure whatlanggo where
  Detect : String → Info
  Kor : Lang

/-- Bot provides a control plane to both slack and papago.  The field
`eventChan` is the queue handed to `Process`; the logger is in the trace. -/
structure Bot (σ : Type) where
  s : socketmodeClient σ
  slack : slackClient σ
  client : httpClient σ
  clientID : String
  clientSecret : String

/-- One observable step of the bot. -/
inductive Effect where
  /-- The call `b.client.Do(req)`. -/
  | Do (req : HTTPRequest)
  /-- The line `fmt.Println(resp, err)`. -/
  | Println (resp : HTTPResponse)
  /-- The line `b.logger.Infow("processed message", ...)` of `logline`, with
  its fields `from`, `to`, `msg` and `error`; `msg_length` is `len(msg)`. -/
  | Infow (src dst msg : String) (err : Option Error)
  /-- The line `log.Print(err)`. -/
  | Print (err : Error)
  /-- The call `b.slack.PostMessage(channel, options...)`. -/
  | PostMessage (channel : String) (options : List MsgOption)
  /-- The call `b.s.Ack(req)`. -/
  | Ack (req : Request)
  deriving DecidableEq, Repr

/-! ## Events -/

/-- The struct `slackevents.AppMentionEvent`. -/
structure AppMentionEvent where
  User : String
  Text : String
  TimeStamp : String
  ThreadTimeStamp : String
  Channel : String
  BotID : String
  deriving DecidableEq, Repr

/-- The dynamic type of `innerEvent.Data`. -/
inductive InnerEventData where
  /-- A `*slackevents.AppMentionEvent`, pointing to an event. -/
  | AppMentionEvent (ev : AppMentionEvent)
  /-- Any other inner event, by its type name, or none. -/
  | other (type : String)
  deriving DecidableEq, Repr

/-- The struct `slackevents.EventsAPIInnerEvent`. -/
structure EventsAPIInnerEvent where
  Type_ : String
  Data : InnerEventData
  deriving DecidableEq, Repr

/-- The struct `slackevents.EventsAPIEvent`. -/
structure EventsAPIEvent where
  Type_ : String
  InnerEvent : EventsAPIInnerEvent
  deriving DecidableEq, Repr

/-- The zero value of `EventsAPIEvent`, which a failed type assertion yields. -/
def EventsAPIEvent.zero : EventsAPIEvent := ⟨"", ⟨"", .other ""⟩⟩

/-- The dynamic type of `evt.Data`. -/
inductive EventData where
  /-- A `slackevents.EventsAPIEvent`. -/
  | EventsAPIEvent (e : EventsAPIEvent)
  /-- Any other payload, or none. -/
  | other
  deriving DecidableEq, Repr

/-- The struct `socketmode.Event`: one envelope of the queue.  `Request` is
the value `*evt.Request`; `Process` reads it on the events-API path only, where
the socketmode client always sets the pointer. -/
structure Event where
  Type_ : String
  Data : EventData
  Request : Request
  deriving DecidableEq, Repr

/-- The constant `socketmode.EventTypeEventsAPI`. -/
def EventTypeEventsAPI : String := "events_api"

/-- The constant `slackevents.CallbackEvent`. -/
def CallbackEvent : String := "event_callback"

/-! ## `bot.go` -/

/-- The request `translate` builds: the form with `source`, `target` and
`text`, encoded as the body of a POST, and the three headers.
`http.NewRequest` cannot fail on this constant method and URL. -/
def Bot.newRequest {σ : Type} (b : Bot σ) (src dst msg : String) : HTTPRequest :=
  let form : Values := ((Values.empty.Set "source" src).Set "target" dst).Set "text" msg
  { Method := "POST"
    URL := "https://naveropenapi.apigw.ntruss.com/nmt/v1/translation"
    Header := [("Content-Type", "application/x-www-form-urlencoded; charset=UTF-8"),
               ("X-NCP-APIGW-API-KEY-ID", b.clientID),
               ("X-NCP-APIGW-API-KEY", b.clientSecret)]
    Body := form.Encode }

/-- The method `translate`: result `(s, err)`, its trace, and the collaborator
state after it.  On an error `s` is the empty string.  The status code of the
response is not read.  The deferred `resp.Body.Close()` is not traced. -/
def Bot.translate {σ : Type} (b : Bot σ) (st : σ) (src dst msg : String) :
    Except Error String × List Effect × σ :=
  let req := b.newRequest src dst msg
  match b.client.Do st req with
  | (.error err, st1) => (.error err, [.Do req], st1)
  | (.ok resp, st1) =>
    match Decode resp.Body with
    | .error err => (.error err, [.Do req, .Println resp], st1)
    | .ok r => (.ok r.Message.Result.Text, [.Do req, .Println resp], st1)

/-- The method `toKO`. -/
def Bot.toKO {σ : Type} (b : Bot σ) (st : σ) (msg : String) :
    Except Error String × List Effect × σ :=
  b.translate st "en" "ko" msg

/-- The method `toEN`. -/
def Bot.toEN {σ : Type} (b : Bot σ) (st : σ) (msg : String) :
    Except Error String × List Effect × σ :=
  b.translate st "ko" "en" msg

/-- How a pass through the body of the `for` loop leaves the inner switches:
`next` is the statement `continue`, `fallThrough` reaches the code after them. -/
inductive Flow where
  | next
  | fallThrough
  deriving DecidableEq, Repr

/-- The case `*slackevents.AppMentionEvent` of `Process` (lines 104-142). -/
def Bot.appMention {σ : Type} (wl : whatlanggo) (b : Bot σ) (st : σ) (ev : AppMentionEvent) :
    Flow × List Effect × σ :=
  if ev.BotID ≠ "" then (.next, [], st)
  else
    let kor : Bool := decide ((wl.Detect ev.Text).Lang = wl.Kor)
    let src := if kor then "ko" else "en"
    let dst := if kor then "en" else "ko"
    let t := if kor then b.toEN st ev.Text else b.toKO st ev.Text
    match t with
    | (.error err, effs, st1) =>
      (.next, effs ++ [.Infow src dst "" (some err), .Print err], st1)
    | (.ok body, effs, st1) =>
      let ts := if ev.ThreadTimeStamp ≠ "" then ev.ThreadTimeStamp else ev.TimeStamp
      let options := [MsgOption.MsgOptionText body false, MsgOption.MsgOptionTS ts]
      (.fallThrough,
        effs ++ [.Infow src dst body none, .PostMessage ev.Channel options],
        (b.slack.PostMessage st1 ev.Channel options).2)

/-- One pass through the body of the `for` loop of `Process`, for envelope `evt`. -/
def Bot.handle {σ : Type} (wl : whatlanggo) (b : Bot σ) (st : σ) (evt : Event) :
    List Effect × σ :=
  if evt.Type_ = EventTypeEventsAPI then
    let eventsAPIEvent : EventsAPIEvent :=
      match evt.Data with
      | .EventsAPIEvent e => e
      | .other => EventsAPIEvent.zero
    let inner : Flow × List Effect × σ :=
      if eventsAPIEvent.Type_ = CallbackEvent then
        match eventsAPIEvent.InnerEvent.Data with
        | .AppMentionEvent ev => b.appMention wl st ev
        | .other _ => (.fallThrough, [], st)
      else (.fallThrough, [], st)
    match inner with
    | (.next, effs, st1) => (effs, st1)
    | (.fallThrough, effs, st1) => (effs ++ [.Ack evt.Request], b.s.Ack st1 evt.Request)
  else ([], st)

/-- The method `Process` on a queue that is closed after the listed
envelopes: the trace of the run and the collaborator state at its end.  The
loop then ends and `Process` returns `nil`. -/
def Bot.Process {σ : Type} (wl : whatlanggo) (b : Bot σ) : σ → List Event → List Effect × σ
  | st, [] => ([], st)
  | st, evt :: queue =>
    ((b.handle wl st evt).1 ++ (Bot.Process wl b (b.handle wl st evt).2 queue).1,
      (Bot.Process wl b (b.handle wl st evt).2 queue).2)

/-! ## Reading traces -/

/-- The requests acknowledged in a trace, in order. -/
def ackCalls : List Effect → List Request
  | [] => []
  | .Ack req :: t => req :: ackCalls t
  | _ :: t => ackCalls t

/-- The HTTP requests issued in a trace, in order. -/
def doCalls : List Effect → List HTTPRequest
  | [] => []
  | .Do req :: t => req :: doCalls t
  | _ :: t => doCalls t

/-- The `PostMessage` calls of a trace, in order: channel and options. -/
def postCalls : List Effect → List (String × List MsgOption)
  | [] => []
  | .PostMessage channel options :: t => (channel, options) :: postCalls t
  | _ :: t => postCalls t

/-- Log output: `fmt.Println`, the zap logger, `log.Print`. -/
def Effect.isLog : Effect → Bool
  | .Println _ => true
  | .Infow _ _ _ _ => true
  | .Print _ => true
  | _ => false

/-- The calls on the three collaborators in a trace, log output left out. -/
def calls (t : List Effect) : List Effect := t.filter fun e => !e.isLog

/-- The app-mention an envelope carries, if the switches of `Process` reach
the case `*slackevents.AppMentionEvent` for it. -/
def Event.mention (evt : Event) : Option AppMentionEvent :=
  if evt.Type_ = EventTypeEventsAPI then
    match evt.Data with
    | .EventsAPIEvent e =>
      if e.Type_ = CallbackEvent then
        match e.InnerEvent.Data with
        | .AppMentionEvent ev => some ev
        | .other _ => none
      else none
    | .other => none
  else none

/-- The path of field names to `Text` in `PapagoResponse`. -/
def textPath : List String := ["Message", "Result", "translatedText"]

/-- A JSON value is an object in which the given path of field names, with
keys matched the way the decoder matches them, leads to no value. -/
def lacks : List String → Json → Bool
  | [], _ => false
  | n :: ns, .obj ms => ms.all fun kv => !fieldMatches n kv.1 || lacks ns kv.2
  | _ :: _, _ => false

/-! ## Test doubles and sample envelopes -/

/-- A detector double: the greeting below is Korean, everything else is not. -/
def detectorDouble : whatlanggo :=
  { Detect := fun t => ⟨if t = "안녕하세요" then 1 else 0⟩, Kor := 1 }

/-- A bot over doubles that count the calls made on them; the HTTP client
answers every request with `answer`. -/
def botDouble (answer : Except Error HTTPResponse) : Bot Nat :=
  { s := ⟨fun n _ => n + 1⟩
    slack := ⟨fun n _ _ => (("C1", "T2", none), n + 1)⟩
    client := ⟨fun n _ => (answer, n + 1)⟩
    clientID := "id"
    clientSecret := "secret" }

/-- The same bot with a `PostMessage` that always fails. -/
def failingPostDouble (answer : Except Error HTTPResponse) : Bot Nat :=
  { botDouble answer with
    slack := ⟨fun n _ _ => (("", "", some (.transport "channel_not_found")), n + 1)⟩ }

/-- A response with the nested translated text `Hello`. -/
def helloResponse : HTTPResponse :=
  ⟨200, "\x7b\"message\":\x7b\"result\":\x7b\"translatedText\":\"Hello\"\x7d\x7d\x7d"⟩

/-- A response whose body is the empty JSON object. -/
def emptyObjectResponse : HTTPResponse := ⟨200, "\x7b\x7d"⟩

/-- A response with status 500 and a body that decodes. -/
def serverErrorResponse : HTTPResponse :=
  ⟨500, "\x7b\"message\":\x7b\"result\":\x7b\"translatedText\":\"Hello\"\x7d\x7d\x7d"⟩

/-- A response with status 401 and the error document of the gateway. -/
def unauthorizedResponse : HTTPResponse :=
  ⟨401, "\x7b\"error\":\x7b\"errorCode\":\"200\",\"message\":\"Authentication Failed\"\x7d\x7d"⟩

/-- A response whose body is a complete JSON value followed by other text. -/
def trailingTextResponse : HTTPResponse :=
  ⟨200, "\x7b\"message\":\x7b\"result\":\x7b\"translatedText\":\"Hello\"\x7d\x7d\x7d <html>"⟩

/-- A response whose body breaks off inside the JSON value. -/
def truncatedResponse : HTTPResponse := ⟨200, "\x7b\"message\":\x7b\"resu"⟩

/-- A response whose body is not JSON. -/
def htmlResponse : HTTPResponse := ⟨502, "<html>Bad Gateway</html>"⟩

/-- A response whose translated text has the wrong JSON type. -/
def wrongTypeResponse : HTTPResponse :=
  ⟨200, "\x7b\"message\":\x7b\"result\":\x7b\"translatedText\":5\x7d\x7d\x7d"⟩

/-- The error of a connection that could not be opened. -/
def refused : Error := .transport "connection refused"

/-- An events-API envelope that carries the given app-mention. -/
def mentionEnvelope (id : String) (ev : AppMentionEvent) : Event :=
  { Type_ := EventTypeEventsAPI
    Data := .EventsAPIEvent ⟨CallbackEvent, ⟨"app_mention", .AppMentionEvent ev⟩⟩
    Request := ⟨"events_api", id⟩ }

/-- A Korean mention outside a thread, written by a user. -/
def koreanMention : AppMentionEvent :=
  { User := "U1", Text := "안녕하세요", TimeStamp := "T1", ThreadTimeStamp := "",
    Channel := "C1", BotID := "" }

/-- An English mention inside the thread `T0`, written by a user. -/
def threadMention : AppMentionEvent :=
  { User := "U1", Text := "Hello", TimeStamp := "T1", ThreadTimeStamp := "T0",
    Channel := "C1", BotID := "" }

/-- A mention written by a bot. -/
def botMention : AppMentionEvent :=
  { User := "", Text := "Hello", TimeStamp := "T1", ThreadTimeStamp := "",
    Channel := "C1", BotID := "B1" }

/-- An envelope of another type that asks for an acknowledgment. -/
def slashCommandEnvelope : Event :=
  { Type_ := "slash_commands", Data := .other, Request := ⟨"slash_commands", "E9"⟩ }

/-- An events-API envelope whose inner event is not an app-mention. -/
def messageEnvelope : Event :=
  { Type_ := EventTypeEventsAPI
    Data := .EventsAPIEvent ⟨CallbackEvent, ⟨"message", .other "message"⟩⟩
    Request := ⟨"events_api", "E8"⟩ }

/-! ## The reader consumes its input and its recursion bound suffices -/

theorem skipSpace_length_le (cs : List Char) : (skipSpace cs).length ≤ cs.length := by
  induction cs with
  | nil => simp [skipSpace]
  | cons c cs ih =>
    simp only [skipSpace]
    split
    · simp only [List.length_cons]; omega
    · exact Nat.le_refl _

theorem skipSpace_eq_cons_length {cs rest : List Char} {c : Char}
    (h : skipSpace cs = c :: rest) : rest.length < cs.length := by
  have := skipSpace_length_le cs
  rw [h] at this
  simp only [List.length_cons] at this
  omega

theorem scanString_length (st : StrState) (cs raw rest : List Char)
    (h : scanString st cs = .ok (raw, rest)) : rest.length < cs.length := by
  induction cs generalizing st raw rest with
  | nil => cases st <;> simp [scanString] at h
  | cons c cs ih =>
    cases st with
    | plain =>
      simp only [scanString] at h
      split at h
      · simp only [Except.ok.injEq, Prod.mk.injEq] at h
        rw [← h.2]; simp
      · split at h
        · split at h
          · rename_i raw1 rest1 h1
            simp only [Except.ok.injEq, Prod.mk.injEq] at h
            have := ih _ _ _ h1
            rw [← h.2]; simp only [List.length_cons]; omega
          · simp at h
        · split at h
          · simp at h
          · split at h
            · rename_i raw1 rest1 h1
              simp only [Except.ok.injEq, Prod.mk.injEq] at h
              have := ih _ _ _ h1
              rw [← h.2]; simp only [List.length_cons]; omega
            · simp at h
    | esc =>
      simp only [scanString] at h
      split at h
      · split at h
        · rename_i raw1 rest1 h1
          simp only [Except.ok.injEq, Prod.mk.injEq] at h
          have := ih _ _ _ h1
          rw [← h.2]; simp only [List.length_cons]; omega
        · simp at h
      · split at h
        · split at h
          · rename_i raw1 rest1 h1
            simp only [Except.ok.injEq, Prod.mk.injEq] at h
            have := ih _ _ _ h1
            rw [← h.2]; simp only [List.length_cons]; omega
          · simp at h
        · simp at h
    | escU n =>
      simp only [scanString] at h
      split at h
      · split at h
        · rename_i raw1 rest1 h1
          simp only [Except.ok.injEq, Prod.mk.injEq] at h
          have := ih _ _ _ h1
          rw [← h.2]; simp only [List.length_cons]; omega
        · simp at h
      · simp at h

theorem spanDigits_length_le (cs : List Char) : (spanDigits cs).2.length ≤ cs.length := by
  induction cs with
  | nil => simp [spanDigits]
  | cons c cs ih =>
    simp only [spanDigits]
    split
    · simp only [List.length_cons]; omega
    · exact Nat.le_refl _

theorem scanInt_length (cs i rest : List Char) (h : scanInt cs = .ok (i, rest)) :
    rest.length < cs.length := by
  cases cs with
  | nil => simp [scanInt] at h
  | cons c cs =>
    simp only [scanInt] at h
    have := spanDigits_length_le cs
    split at h
    · simp only [Except.ok.injEq, Prod.mk.injEq] at h
      rw [← h.2]; simp
    · split at h
      · simp only [Except.ok.injEq, Prod.mk.injEq] at h
        rw [← h.2]; simp only [List.length_cons]; omega
      · simp at h

theorem scanFrac_length (cs f rest : List Char) (h : scanFrac cs = .ok (f, rest)) :
    rest.length ≤ cs.length := by
  cases cs with
  | nil => simp [scanFrac] at h; simp [h]
  | cons c cs =>
    simp only [scanFrac] at h
    split at h
    · split at h
      · simp at h
      · rename_i d ds
        have := spanDigits_length_le ds
        split at h
        · simp only [Except.ok.injEq, Prod.mk.injEq] at h
          rw [← h.2]; simp only [List.length_cons]; omega
        · simp at h
    · simp only [Except.ok.injEq, Prod.mk.injEq] at h
      rw [← h.2]

theorem scanExpDigits_length (cs ds rest : List Char) (h : scanExpDigits cs = .ok (ds, rest)) :
    rest.length ≤ cs.length := by
  cases cs with
  | nil => simp [scanExpDigits] at h
  | cons c cs =>
    simp only [scanExpDigits] at h
    have := spanDigits_length_le cs
    split at h
    · simp only [Except.ok.injEq, Prod.mk.injEq] at h
      rw [← h.2]; simp only [List.length_cons]; omega
    · simp at h

theorem scanExp_length (cs x rest : List Char) (h : scanExp cs = .ok (x, rest)) :
    rest.length ≤ cs.length := by
  cases cs with
  | nil => simp [scanExp] at h; simp [h]
  | cons c cs =>
    simp only [scanExp] at h
    split at h
    · split at h
      · simp at h
      · rename_i s ss
        split at h
        · split at h
          · rename_i ds rest1 h1
            have := scanExpDigits_length _ _ _ h1
            simp only [Except.ok.injEq, Prod.mk.injEq] at h
            rw [← h.2]; simp only [List.length_cons]; omega
          · simp at h
        · split at h
          · rename_i ds rest1 h1
            have := scanExpDigits_length _ _ _ h1
            simp only [Except.ok.injEq, Prod.mk.injEq] at h
            rw [← h.2]; simp only [List.length_cons] at this ⊢; omega
          · simp at h
    · simp only [Except.ok.injEq, Prod.mk.injEq] at h
      rw [← h.2]

theorem scanNumber_length (cs lit rest : List Char) (h : scanNumber cs = .ok (lit, rest)) :
    rest.length < cs.length := by
  simp only [scanNumber] at h
  split at h
  · simp at h
  · rename_i i r1 h1
    split at h
    · simp at h
    · rename_i f r2 h2
      split at h
      · simp at h
      · rename_i x r3 h3
        simp only [Except.ok.injEq, Prod.mk.injEq] at h
        have a1 := scanInt_length _ _ _ h1
        have a2 := scanFrac_length _ _ _ h2
        have a3 := scanExp_length _ _ _ h3
        have a0 : (match cs with
            | c :: rest => if c = '-' then ([c], rest) else ([], cs)
            | [] => (([] : List Char), ([] : List Char))).2.length ≤ cs.length := by
          cases cs with
          | nil => simp
          | cons c cs => simp only; split <;> simp
        rw [← h.2]; omega

theorem scanLiteral_length (es cs rest : List Char) (h : scanLiteral es cs = .ok rest) :
    rest.length ≤ cs.length := by
  induction es generalizing cs with
  | nil => simp [scanLiteral] at h; simp [h]
  | cons e es ih =>
    cases cs with
    | nil => simp [scanLiteral] at h
    | cons c cs =>
      simp only [scanLiteral] at h
      split at h
      · have := ih _ h
        simp only [List.length_cons]; omega
      · simp at h

theorem parse_length (fuel : Nat) : ∀ (m : Mode) (depth : Nat) (cs : List Char) (v : Json)
    (rest : List Char), parse fuel m depth cs = some (.ok (v, rest)) → rest.length < cs.length := by
  induction fuel with
  | zero => intro m depth cs v rest h; simp [parse] at h
  | succ fuel ih =>
    intro m depth cs v rest h
    cases m with
    | value =>
      simp only [parse] at h
      split at h
      · simp at h
      · rename_i c rest0 h0
        have l0 := skipSpace_eq_cons_length h0
        split at h
        · split at h
          · simp at h
          · split at h
            · simp at h
            · rename_i c1 rest1 h1
              have l1 := skipSpace_length_le rest0
              rw [h1] at l1
              simp only [List.length_cons] at l1
              split at h
              · simp only [Option.some.injEq, Except.ok.injEq, Prod.mk.injEq] at h
                rw [← h.2]; omega
              · have := ih _ _ _ _ _ h
                simp only [List.length_cons] at this; omega
        · split at h
          · split at h
            · simp at h
            · split at h
              · simp at h
              · rename_i c1 rest1 h1
                have l1 := skipSpace_length_le rest0
                rw [h1] at l1
                simp only [List.length_cons] at l1
                split at h
                · simp only [Option.some.injEq, Except.ok.injEq, Prod.mk.injEq] at h
                  rw [← h.2]; omega
                · have := ih _ _ _ _ _ h
                  simp only [List.length_cons] at this; omega
          · split at h
            · split at h
              · simp at h
              · rename_i raw rest1 h1
                have := scanString_length _ _ _ _ h1
                simp only [Option.some.injEq, Except.ok.injEq, Prod.mk.injEq] at h
                rw [← h.2]; omega
            · split at h
              · split at h
                · simp at h
                · rename_i lit rest1 h1
                  have := scanNumber_length _ _ _ h1
                  simp only [Option.some.injEq, Except.ok.injEq, Prod.mk.injEq] at h
                  simp only [List.length_cons] at this
                  rw [← h.2]; omega
              · split at h
                · split at h
                  · simp at h
                  · rename_i rest1 h1
                    have := scanLiteral_length _ _ _ h1
                    simp only [Option.some.injEq, Except.ok.injEq, Prod.mk.injEq] at h
                    rw [← h.2]; omega
                · split at h
                  · split at h
                    · simp at h
                    · rename_i rest1 h1
                      have := scanLiteral_length _ _ _ h1
                      simp only [Option.some.injEq, Except.ok.injEq, Prod.mk.injEq] at h
                      rw [← h.2]; omega
                  · split at h
                    · split at h
                      · simp at h
                      · rename_i rest1 h1
                        have := scanLiteral_length _ _ _ h1
                        simp only [Option.some.injEq, Except.ok.injEq, Prod.mk.injEq] at h
                        rw [← h.2]; omega
                    · simp at h
    | elements acc =>
      simp only [parse] at h
      split at h
      · simp at h
      · simp at h
      · rename_i v1 rest1 h1
        have l1 := ih _ _ _ _ _ h1
        split at h
        · simp at h
        · rename_i c rest2 h2
          have l2 := skipSpace_eq_cons_length h2
          split at h
          · have := ih _ _ _ _ _ h; omega
          · split at h
            · simp only [Option.some.injEq, Except.ok.injEq, Prod.mk.injEq] at h
              rw [← h.2]; omega
            · simp at h
    | members acc =>
      simp only [parse] at h
      split at h
      · simp at h
      · rename_i c rest0 h0
        have l0 := skipSpace_eq_cons_length h0
        split at h
        · split at h
          · simp at h
          · rename_i raw rest1 h1
            have l1 := scanString_length _ _ _ _ h1
            split at h
            · simp at h
            · rename_i c1 rest2 h2
              have l2 := skipSpace_eq_cons_length h2
              split at h
              · split at h
                · simp at h
                · simp at h
                · rename_i v1 rest3 h3
                  have l3 := ih _ _ _ _ _ h3
                  split at h
                  · simp at h
                  · rename_i c2 rest4 h4
                    have l4 := skipSpace_eq_cons_length h4
                    split at h
                    · have := ih _ _ _ _ _ h; omega
                    · split at h
                      · simp only [Option.some.injEq, Except.ok.injEq, Prod.mk.injEq] at h
                        rw [← h.2]; omega
                      · simp at h
              · simp at h
        · simp at h

theorem parse_fuel_enough (fuel : Nat) : ∀ (m : Mode) (depth : Nat) (cs : List Char),
    fuelNeeded m cs ≤ fuel → parse fuel m depth cs ≠ none := by
  induction fuel with
  | zero => intro m depth cs h; cases m <;> simp [fuelNeeded] at h
  | succ fuel ih =>
    intro m depth cs hf
    cases m with
    | value =>
      simp only [fuelNeeded] at hf
      simp only [parse]
      split
      · simp
      · rename_i c rest0 h0
        have l0 := skipSpace_eq_cons_length h0
        split
        · split
          · simp
          · split
            · simp
            · rename_i c1 rest1 h1
              have l1 := skipSpace_length_le rest0
              rw [h1] at l1
              simp only [List.length_cons] at l1
              split
              · simp
              · apply ih
                simp only [fuelNeeded, List.length_cons]; omega
        · split
          · split
            · simp
            · split
              · simp
              · rename_i c1 rest1 h1
                have l1 := skipSpace_length_le rest0
                rw [h1] at l1
                simp only [List.length_cons] at l1
                split
                · simp
                · apply ih
                  simp only [fuelNeeded, List.length_cons]; omega
          · split
            · split <;> simp
            · split
              · split <;> simp
              · split
                · split <;> simp
                · split
                  · split <;> simp
                  · split
                    · split <;> simp
                    · simp
    | elements acc =>
      simp only [fuelNeeded] at hf
      simp only [parse]
      have hv : parse fuel .value depth cs ≠ none := by
        apply ih; simp only [fuelNeeded]; omega
      split
      · rename_i h1; exact absurd h1 hv
      · simp
      · rename_i v1 rest1 h1
        have l1 := parse_length _ _ _ _ _ _ h1
        split
        · simp
        · rename_i c rest2 h2
          have l2 := skipSpace_eq_cons_length h2
          split
          · apply ih; simp only [fuelNeeded]; omega
          · split <;> simp
    | members acc =>
      simp only [fuelNeeded] at hf
      simp only [parse]
      split
      · simp
      · rename_i c rest0 h0
        have l0 := skipSpace_eq_cons_length h0
        split
        · split
          · simp
          · rename_i raw rest1 h1
            have l1 := scanString_length _ _ _ _ h1
            split
            · simp
            · rename_i c1 rest2 h2
              have l2 := skipSpace_eq_cons_length h2
              split
              · have hv : parse fuel .value depth rest2 ≠ none := by
                  apply ih; simp only [fuelNeeded]; omega
                split
                · rename_i h3; exact absurd h3 hv
                · simp
                · rename_i v1 rest3 h3
                  have l3 := parse_length _ _ _ _ _ _ h3
                  split
                  · simp
                  · rename_i c2 rest4 h4
                    have l4 := skipSpace_eq_cons_length h4
                    split
                    · apply ih; simp only [fuelNeeded]; omega
                    · split <;> simp
              · simp
        · simp

theorem parse_total (depth : Nat) (cs : List Char) :
    ∃ r, parse (parseFuel cs) .value depth cs = some r := by
  have h := parse_fuel_enough (parseFuel cs) .value depth cs (by simp [fuelNeeded, parseFuel])
  cases hp : parse (parseFuel cs) .value depth cs with
  | none => exact absurd hp h
  | some r => exact ⟨r, rfl⟩

theorem parse_fuel_succ (fuel : Nat) : ∀ (m : Mode) (depth : Nat) (cs : List Char)
    (r : Except Error (Json × List Char)),
    parse fuel m depth cs = some r → parse (fuel + 1) m depth cs = some r := by
  induction fuel with
  | zero => intro m depth cs r h; simp [parse] at h
  | succ fuel ih =>
    intro m depth cs r h
    cases m with
    | value =>
      rw [parse] at h ⊢
      cases hs : skipSpace cs with
      | nil => simp only [hs] at h ⊢; exact h
      | cons c rest0 =>
        simp only [hs] at h ⊢
        by_cases hc : c = '{'
        · simp only [hc, if_true] at h ⊢
          by_cases hd : maxNestingDepth ≤ depth
          · simp only [hd, if_true] at h ⊢; exact h
          · simp only [hd, if_false] at h ⊢
            cases hs1 : skipSpace rest0 with
            | nil => simp only [hs1] at h ⊢; exact h
            | cons c1 rest1 =>
              simp only [hs1] at h ⊢
              by_cases hb : c1 = '}'
              · simp only [hb, if_true] at h ⊢; exact h
              · simp only [hb, if_false] at h ⊢; exact ih _ _ _ _ h
        · simp only [hc, if_false] at h ⊢
          by_cases hc2 : c = '['
          · simp only [hc2, if_true] at h ⊢
            by_cases hd : maxNestingDepth ≤ depth
            · simp only [hd, if_true] at h ⊢; exact h
            · simp only [hd, if_false] at h ⊢
              cases hs1 : skipSpace rest0 with
              | nil => simp only [hs1] at h ⊢; exact h
              | cons c1 rest1 =>
                simp only [hs1] at h ⊢
                by_cases hb : c1 = ']'
                · simp only [hb, if_true] at h ⊢; exact h
                · simp only [hb, if_false] at h ⊢; exact ih _ _ _ _ h
          · simp only [hc2, if_false] at h ⊢; exact h
    | elements acc =>
      rw [parse] at h ⊢
      cases h1 : parse fuel .value depth cs with
      | none => simp [h1] at h
      | some r1 =>
        rw [ih _ _ _ _ h1]
        simp only [h1] at h
        cases r1 with
        | error e => exact h
        | ok p =>
          obtain ⟨v, rest⟩ := p
          simp only at h ⊢
          cases hs : skipSpace rest with
          | nil => simp only [hs] at h ⊢; exact h
          | cons c rest1 =>
            simp only [hs] at h ⊢
            by_cases hc : c = ','
            · simp only [hc, if_true] at h ⊢; exact ih _ _ _ _ h
            · simp only [hc, if_false] at h ⊢; exact h
    | members acc =>
      rw [parse] at h ⊢
      cases hs : skipSpace cs with
      | nil => simp only [hs] at h ⊢; exact h
      | cons c rest0 =>
        simp only [hs] at h ⊢
        by_cases hc : c = '"'
        · simp only [hc, if_true] at h ⊢
          cases hstr : scanString .plain rest0 with
          | error e => simp only [hstr] at h ⊢; exact h
          | ok p =>
            obtain ⟨raw, rest1⟩ := p
            simp only [hstr] at h ⊢
            cases hs1 : skipSpace rest1 with
            | nil => simp only [hs1] at h ⊢; exact h
            | cons c1 rest2 =>
              simp only [hs1] at h ⊢
              by_cases hc1 : c1 = ':'
              · simp only [hc1, if_true] at h ⊢
                cases h3 : parse fuel .value depth rest2 with
                | none => simp [h3] at h
                | some r3 =>
                  rw [ih _ _ _ _ h3]
                  simp only [h3] at h
                  cases r3 with
                  | error e => exact h
                  | ok p3 =>
                    obtain ⟨v, rest3⟩ := p3
                    simp only at h ⊢
                    cases hs3 : skipSpace rest3 with
                    | nil => simp only [hs3] at h ⊢; exact h
                    | cons c2 rest4 =>
                      simp only [hs3] at h ⊢
                      by_cases hc2 : c2 = ','
                      · simp only [hc2, if_true] at h ⊢; exact ih _ _ _ _ h
                      · simp only [hc2, if_false] at h ⊢; exact h
              · simp only [hc1, if_false] at h ⊢; exact h
        · simp only [hc, if_false] at h ⊢; exact h

/-- More recursion bound than `parseFuel` gives the same reading. -/
theorem parse_fuel_more (cs : List Char) (depth k : Nat) :
    parse (parseFuel cs + k) .value depth cs = parse (parseFuel cs) .value depth cs := by
  obtain ⟨r, hr⟩ := parse_total depth cs
  rw [hr]
  induction k with
  | zero => exact hr
  | succ k ih => exact parse_fuel_succ _ _ _ _ _ ih

/-! ### The loop body, case by case -/

theorem Process_singleton {σ : Type} (wl : whatlanggo) (b : Bot σ) (st : σ) (evt : Event) :
    b.Process wl st [evt] = b.handle wl st evt := by
  simp [Bot.Process]

theorem handle_other_type {σ : Type} (wl : whatlanggo) (b : Bot σ) (st : σ) (evt : Event)
    (h : evt.Type_ ≠ EventTypeEventsAPI) : b.handle wl st evt = ([], st) := by
  simp [Bot.handle, h]

theorem handle_no_mention {σ : Type} (wl : whatlanggo) (b : Bot σ) (st : σ) (evt : Event)
    (h : evt.Type_ = EventTypeEventsAPI) (hm : evt.mention = none) :
    b.handle wl st evt = ([.Ack evt.Request], b.s.Ack st evt.Request) := by
  simp only [Event.mention, h, if_true] at hm
  simp only [Bot.handle, h, if_true]
  cases hd : evt.Data with
  | other => simp [EventsAPIEvent.zero, CallbackEvent]
  | EventsAPIEvent e =>
    rw [hd] at hm
    simp only at hm ⊢
    by_cases hc : e.Type_ = CallbackEvent
    · simp only [hc, if_true] at hm ⊢
      cases hi : e.InnerEvent.Data with
      | AppMentionEvent ev => rw [hi] at hm; simp at hm
      | other t => simp
    · simp [hc]

theorem handle_mention {σ : Type} (wl : whatlanggo) (b : Bot σ) (st : σ) (evt : Event)
    (ev : AppMentionEvent) (hm : evt.mention = some ev) :
    b.handle wl st evt =
      match b.appMention wl st ev with
      | (.next, effs, st1) => (effs, st1)
      | (.fallThrough, effs, st1) => (effs ++ [.Ack evt.Request], b.s.Ack st1 evt.Request) := by
  by_cases h : evt.Type_ = EventTypeEventsAPI
  · simp only [Event.mention, h, if_true] at hm
    simp only [Bot.handle, h, if_true]
    cases hd : evt.Data with
    | other => rw [hd] at hm; simp at hm
    | EventsAPIEvent e =>
      rw [hd] at hm
      simp only at hm ⊢
      by_cases hc : e.Type_ = CallbackEvent
      · simp only [hc, if_true] at hm ⊢
        cases hi : e.InnerEvent.Data with
        | AppMentionEvent ev1 =>
          rw [hi] at hm
          simp only [Option.some.injEq] at hm
          subst hm
          rfl
        | other t => rw [hi] at hm; simp at hm
      · simp [hc] at hm
  · simp [Event.mention, h] at hm

theorem appMention_bot {σ : Type} (wl : whatlanggo) (b : Bot σ) (st : σ) (ev : AppMentionEvent)
    (h : ev.BotID ≠ "") : b.appMention wl st ev = (.next, [], st) := by
  simp [Bot.appMention, h]

theorem translate_do_error {σ : Type} (b : Bot σ) (st : σ) (src dst msg : String) (e : Error)
    (h : (b.client.Do st (b.newRequest src dst msg)).1 = .error e) :
    b.translate st src dst msg =
      (.error e, [.Do (b.newRequest src dst msg)], (b.client.Do st (b.newRequest src dst msg)).2) := by
  simp only [Bot.translate]
  split
  · rename_i err st1 hd
    rw [hd] at h
    simp only [Except.error.injEq] at h
    subst h
    simp [hd]
  · rename_i resp st1 hd
    rw [hd] at h
    simp at h

theorem translate_do_ok {σ : Type} (b : Bot σ) (st : σ) (src dst msg : String) (resp : HTTPResponse)
    (h : (b.client.Do st (b.newRequest src dst msg)).1 = .ok resp) :
    b.translate st src dst msg =
      ((Decode resp.Body).map fun r => r.Message.Result.Text,
        [.Do (b.newRequest src dst msg), .Println resp],
        (b.client.Do st (b.newRequest src dst msg)).2) := by
  simp only [Bot.translate]
  split
  · rename_i err st1 hd
    rw [hd] at h
    simp at h
  · rename_i resp1 st1 hd
    rw [hd] at h
    simp only [Except.ok.injEq] at h
    subst h
    cases hdec : Decode resp1.Body <;> simp [hd, Except.map]

/-- The trace of `translate` is the request, then at most a `Println`. -/
theorem translate_trace {σ : Type} (b : Bot σ) (st : σ) (src dst msg : String) :
    doCalls (b.translate st src dst msg).2.1 = [b.newRequest src dst msg] ∧
    postCalls (b.translate st src dst msg).2.1 = [] ∧
    ackCalls (b.translate st src dst msg).2.1 = [] ∧
    calls (b.translate st src dst msg).2.1 = [.Do (b.newRequest src dst msg)] := by
  simp only [Bot.translate]
  split
  · simp [doCalls, postCalls, ackCalls, calls, Effect.isLog]
  · split <;> simp [doCalls, postCalls, ackCalls, calls, Effect.isLog]

/-! ### Traces -/

theorem ackCalls_append (t u : List Effect) : ackCalls (t ++ u) = ackCalls t ++ ackCalls u := by
  induction t with
  | nil => rfl
  | cons e t ih => cases e <;> simp [ackCalls, ih]

theorem doCalls_append (t u : List Effect) : doCalls (t ++ u) = doCalls t ++ doCalls u := by
  induction t with
  | nil => rfl
  | cons e t ih => cases e <;> simp [doCalls, ih]

theorem postCalls_append (t u : List Effect) : postCalls (t ++ u) = postCalls t ++ postCalls u := by
  induction t with
  | nil => rfl
  | cons e t ih => cases e <;> simp [postCalls, ih]

theorem calls_append (t u : List Effect) : calls (t ++ u) = calls t ++ calls u := by
  simp [calls]

theorem newRequest_body {σ : Type} (b : Bot σ) (src dst msg : String) :
    (b.newRequest src dst msg).Body =
      "source=" ++ QueryEscape src ++ "&target=" ++ QueryEscape dst ++ "&text=" ++ QueryEscape msg := by
  have h1 : ¬ ("source" = "target") := by decide
  have h2 : ¬ ("source" = "text") := by decide
  have h3 : ¬ ("target" = "text") := by decide
  have k1 : keyLess "target" "text" = true := by decide
  have k2 : keyLess "source" "target" = true := by decide
  have e1 : QueryEscape "source" ++ "=" = "source=" := by decide
  have e2 : "&" ++ QueryEscape "target" ++ "=" = "&target=" := by decide
  have e3 : "&" ++ QueryEscape "text" ++ "=" = "&text=" := by decide
  rw [← e1, ← e2, ← e3]
  simp [Bot.newRequest, Values.Set, Values.empty, setEntry, Values.Encode, sortByKey, insertByKey,
    h1, h2, h3, k1, k2, String.intercalate, String.intercalate.go, String.append_assoc]

/-! ### The mention case -/

theorem appMention_user {σ : Type} (wl : whatlanggo) (b : Bot σ) (st : σ) (ev : AppMentionEvent)
    (hb : ev.BotID = "") :
    b.appMention wl st ev =
      match (if (wl.Detect ev.Text).Lang = wl.Kor then b.toEN st ev.Text else b.toKO st ev.Text) with
      | (.error err, effs, st1) =>
        (.next, effs ++ [.Infow (if (wl.Detect ev.Text).Lang = wl.Kor then "ko" else "en")
          (if (wl.Detect ev.Text).Lang = wl.Kor then "en" else "ko") "" (some err), .Print err], st1)
      | (.ok body, effs, st1) =>
        (.fallThrough,
          effs ++ [.Infow (if (wl.Detect ev.Text).Lang = wl.Kor then "ko" else "en")
            (if (wl.Detect ev.Text).Lang = wl.Kor then "en" else "ko") body none,
            .PostMessage ev.Channel [.MsgOptionText body false,
              .MsgOptionTS (if ev.ThreadTimeStamp ≠ "" then ev.ThreadTimeStamp else ev.TimeStamp)]],
          (b.slack.PostMessage st1 ev.Channel [.MsgOptionText body false,
              .MsgOptionTS (if ev.ThreadTimeStamp ≠ "" then ev.ThreadTimeStamp else ev.TimeStamp)]).2) := by
  by_cases hk : (wl.Detect ev.Text).Lang = wl.Kor <;> simp [Bot.appMention, hb, hk]

theorem appMention_no_ack {σ : Type} (wl : whatlanggo) (b : Bot σ) (st : σ) (ev : AppMentionEvent) :
    ackCalls (b.appMention wl st ev).2.1 = [] := by
  by_cases hb : ev.BotID = ""
  · rw [appMention_user wl b st ev hb]
    have ha : ∀ src dst, ackCalls (b.translate st src dst ev.Text).2.1 = [] :=
      fun src dst => (translate_trace b st src dst ev.Text).2.2.1
    by_cases hk : (wl.Detect ev.Text).Lang = wl.Kor
    · simp only [hk, if_true, Bot.toEN]
      have ha := ha "ko" "en"
      generalize b.translate st "ko" "en" ev.Text = t at ha
      obtain ⟨r, effs, st1⟩ := t
      cases r <;> simp_all [ackCalls_append, ackCalls]
    · simp only [hk, if_false, Bot.toKO]
      have ha := ha "en" "ko"
      generalize b.translate st "en" "ko" ev.Text = t at ha
      obtain ⟨r, effs, st1⟩ := t
      cases r <;> simp_all [ackCalls_append, ackCalls]
  · rw [appMention_bot wl b st ev hb]; rfl

theorem handle_ack_sublist {σ : Type} (wl : whatlanggo) (b : Bot σ) (st : σ) (evt : Event) :
    (ackCalls (b.handle wl st evt).1).Sublist
      (([evt].filter fun e => decide (e.Type_ = EventTypeEventsAPI)).map fun e => e.Request) := by
  by_cases h : evt.Type_ = EventTypeEventsAPI
  · cases hm : evt.mention with
    | none => rw [handle_no_mention wl b st evt h hm]; simp [ackCalls, h]
    | some ev =>
      rw [handle_mention wl b st evt ev hm]
      have ha := appMention_no_ack wl b st ev
      generalize b.appMention wl st ev = t at ha
      obtain ⟨f, effs, st1⟩ := t
      simp only at ha
      cases f <;> simp [ackCalls_append, ackCalls, ha, h]
  · rw [handle_other_type wl b st evt h]; simp [ackCalls]

theorem Process_ack_sublist {σ : Type} (wl : whatlanggo) (b : Bot σ) (q : List Event) :
    ∀ st : σ, (ackCalls (b.Process wl st q).1).Sublist
      ((q.filter fun e => decide (e.Type_ = EventTypeEventsAPI)).map fun e => e.Request) := by
  induction q with
  | nil => intro st; simp [Bot.Process, ackCalls]
  | cons evt q ih =>
    intro st
    have h1 := handle_ack_sublist wl b st evt
    have h2 := ih (b.handle wl st evt).2
    have : (evt :: q) = [evt] ++ q := rfl
    rw [this, List.filter_append, List.map_append]
    simp only [Bot.Process, List.singleton_append, ackCalls_append]
    exact List.Sublist.append h1 h2

/-! ### Decoding a body that lacks the field -/

theorem storeStruct_lacks (n : String) (ns : List String)
    (field : Json → decodeState → decodeState)
    (hf : ∀ v d, lacks ns v = true → field v d = d) (v : Json) (d : decodeState)
    (h : lacks (n :: ns) v = true) : storeStruct n field v d = d := by
  cases v with
  | obj ms =>
    simp only [lacks, List.all_eq_true] at h
    simp only [storeStruct]
    induction ms generalizing d with
    | nil => rfl
    | cons kv ms ih =>
      simp only [List.foldl_cons]
      have hkv := h kv (List.mem_cons_self _ _)
      have hd : (if fieldMatches n kv.1 = true then field kv.2 d else d) = d := by
        split
        · rename_i hmatch
          simp only [hmatch, Bool.not_true, Bool.false_or] at hkv
          exact hf _ _ hkv
        · rfl
      rw [hd]
      exact ih d (fun x hx => h x (List.mem_cons_of_mem _ hx))
  | null => simp [lacks] at h
  | bool _ => simp [lacks] at h
  | num _ => simp [lacks] at h
  | str _ => simp [lacks] at h
  | arr _ => simp [lacks] at h

theorem unmarshal_lacks (v : Json) (h : lacks textPath v = true) :
    unmarshal v = .ok PapagoResponse.zero := by
  have h3 : ∀ v d, lacks ["translatedText"] v = true →
      storeStruct "translatedText" storeText v d = d :=
    fun v d hv => storeStruct_lacks _ [] storeText (fun v d hv => by simp [lacks] at hv) v d hv
  have h2 : ∀ v d, lacks ["Result", "translatedText"] v = true →
      storeStruct "Result" (storeStruct "translatedText" storeText) v d = d :=
    fun v d hv => storeStruct_lacks _ _ _ h3 v d hv
  have h1 := storeStruct_lacks "Message" _ _ h2 v ⟨PapagoResponse.zero, none⟩ h
  simp [unmarshal, h1]

theorem Process_concat {σ : Type} (wl : whatlanggo) (b : Bot σ) (q1 q2 : List Event) :
    ∀ st : σ, b.Process wl st (q1 ++ q2) =
      ((b.Process wl st q1).1 ++ (b.Process wl (b.Process wl st q1).2 q2).1,
        (b.Process wl (b.Process wl st q1).2 q2).2) := by
  induction q1 with
  | nil => intro st; simp [Bot.Process]
  | cons evt q1 ih => intro st; simp [Bot.Process, ih]

/-- The acknowledgments of a run, split at one envelope of the queue: those of
the envelopes before it, those of its own pass through the loop body, those of
the envelopes after it. -/
theorem Process_ack_at {σ : Type} (wl : whatlanggo) (b : Bot σ) (st : σ)
    (q1 : List Event) (evt : Event) (q2 : List Event) :
    ackCalls (b.Process wl st (q1 ++ evt :: q2)).1 =
      ackCalls (b.Process wl st q1).1 ++
        (ackCalls (b.handle wl (b.Process wl st q1).2 evt).1 ++
          ackCalls (b.Process wl (b.Process wl st (q1 ++ [evt])).2 q2).1) := by
  rw [Process_concat wl b q1 (evt :: q2) st, Process_concat wl b q1 [evt] st]
  simp [Bot.Process, ackCalls_append]

theorem handle_ack_translated {σ : Type} (wl : whatlanggo) (b : Bot σ) (st : σ) (evt : Event)
    (ev : AppMentionEvent) (body : String) (hm : evt.mention = some ev) (hb : ev.BotID = "")
    (ht : (if (wl.Detect ev.Text).Lang = wl.Kor then b.toEN st ev.Text else b.toKO st ev.Text).1
      = .ok body) :
    ackCalls (b.handle wl st evt).1 = [evt.Request] := by
  rw [handle_mention wl b st evt ev hm]
  have ha := appMention_no_ack wl b st ev
  rw [appMention_user wl b st ev hb] at ha ⊢
  generalize (if (wl.Detect ev.Text).Lang = wl.Kor then b.toEN st ev.Text
    else b.toKO st ev.Text) = t at ht ha
  obtain ⟨r, effs, st1⟩ := t
  simp only at ht
  subst ht
  simp only [ackCalls_append] at ha ⊢
  simp_all [ackCalls]

/-! ## The claims -/

/-- C1, as amended.  For every queue and every behaviour of the collaborators,
the acknowledgments of `Process` are, in queue order, requests of events-API
envelopes of the queue, at most one per envelope.  For an envelope at any
place of any queue: the run acknowledges what it acknowledges for the envelopes
before it, then for the envelope itself nothing if its type is not events-API,
and exactly its own request once if it is an events-API envelope that carries
no app-mention or a mention not written by a bot whose translation succeeds,
then what it acknowledges for the envelopes after it. -/
theorem Process_ack_discipline {σ : Type} (wl : whatlanggo) (b : Bot σ) (st : σ) :
    (∀ q : List Event, (ackCalls (b.Process wl st q).1).Sublist
      ((q.filter fun e => decide (e.Type_ = EventTypeEventsAPI)).map fun e => e.Request)) ∧
    (∀ (q1 : List Event) (evt : Event) (q2 : List Event), evt.Type_ ≠ EventTypeEventsAPI →
      ackCalls (b.Process wl st (q1 ++ evt :: q2)).1 =
        ackCalls (b.Process wl st q1).1 ++
          ackCalls (b.Process wl (b.Process wl st (q1 ++ [evt])).2 q2).1) ∧
    (∀ (q1 : List Event) (evt : Event) (q2 : List Event), evt.Type_ = EventTypeEventsAPI →
      evt.mention = none →
      ackCalls (b.Process wl st (q1 ++ evt :: q2)).1 =
        ackCalls (b.Process wl st q1).1 ++
          evt.Request :: ackCalls (b.Process wl (b.Process wl st (q1 ++ [evt])).2 q2).1) ∧
    (∀ (q1 : List Event) (evt : Event) (q2 : List Event) (ev : AppMentionEvent) (body : String),
      evt.mention = some ev → ev.BotID = "" →
      (if (wl.Detect ev.Text).Lang = wl.Kor then b.toEN (b.Process wl st q1).2 ev.Text
        else b.toKO (b.Process wl st q1).2 ev.Text).1 = .ok body →
      ackCalls (b.Process wl st (q1 ++ evt :: q2)).1 =
        ackCalls (b.Process wl st q1).1 ++
          evt.Request :: ackCalls (b.Process wl (b.Process wl st (q1 ++ [evt])).2 q2).1) := by
  refine ⟨fun q => Process_ack_sublist wl b q st, ?_, ?_, ?_⟩
  · intro q1 evt q2 h
    rw [Process_ack_at, handle_other_type wl b _ evt h]
    simp [ackCalls]
  · intro q1 evt q2 h hm
    rw [Process_ack_at, handle_no_mention wl b _ evt h hm]
    simp [ackCalls]
  · intro q1 evt q2 ev body hm hb ht
    rw [Process_ack_at, handle_ack_translated wl b _ evt ev body hm hb ht]
    simp

/-- C1 at concrete queues.  In the queue of a slash-command envelope, a
translated user mention and an events-API envelope without a mention, the
mention in the middle and the envelope at the end are each acknowledged once
and the slash-command envelope at the front is not; so are the same envelopes
in one-envelope queues. -/
theorem Process_ack_discipline_witness :
    (ackCalls ((botDouble (.ok helloResponse)).Process detectorDouble 0
        [slashCommandEnvelope, mentionEnvelope "E1" koreanMention, messageEnvelope]).1
      = [⟨"events_api", "E1"⟩, ⟨"events_api", "E8"⟩]) ∧
    (messageEnvelope.Type_ = EventTypeEventsAPI ∧ messageEnvelope.mention = none ∧
      ackCalls ((botDouble (.ok helloResponse)).Process detectorDouble 0
        [slashCommandEnvelope, mentionEnvelope "E1" koreanMention, messageEnvelope]).1
      = ackCalls ((botDouble (.ok helloResponse)).Process detectorDouble 0
          [slashCommandEnvelope, mentionEnvelope "E1" koreanMention]).1
        ++ [messageEnvelope.Request]) ∧
    (slashCommandEnvelope.Type_ ≠ EventTypeEventsAPI ∧
      ackCalls ((botDouble (.ok helloResponse)).Process detectorDouble 0
        [slashCommandEnvelope, mentionEnvelope "E1" koreanMention, messageEnvelope]).1
      = ackCalls ((botDouble (.ok helloResponse)).Process detectorDouble 0
          [mentionEnvelope "E1" koreanMention, messageEnvelope]).1) ∧
    (ackCalls ((botDouble (.ok helloResponse)).Process detectorDouble 0 [messageEnvelope]).1
      = [messageEnvelope.Request]) ∧
    (ackCalls ((botDouble (.ok helloResponse)).Process detectorDouble 0
      [slashCommandEnvelope]).1 = []) := by
  have hd := Process_ack_discipline detectorDouble (botDouble (.ok helloResponse)) 0
  have hmid := hd.2.2.2 [slashCommandEnvelope] (mentionEnvelope "E1" koreanMention)
    [messageEnvelope] koreanMention "Hello" (by decide) (by decide) (by decide)
  have hlast := hd.2.2.1 [slashCommandEnvelope, mentionEnvelope "E1" koreanMention]
    messageEnvelope [] (by decide) (by decide)
  have hfront := hd.2.1 [] slashCommandEnvelope
    [mentionEnvelope "E1" koreanMention, messageEnvelope] (by decide)
  have hone := hd.2.2.1 [] messageEnvelope [] (by decide) (by decide)
  have hnone := hd.2.1 [] slashCommandEnvelope [] (by decide)
  refine ⟨?_, ⟨by decide, by decide, ?_⟩, ⟨by decide, ?_⟩, ?_, ?_⟩
  · rw [show [slashCommandEnvelope, mentionEnvelope "E1" koreanMention, messageEnvelope]
        = [slashCommandEnvelope] ++ mentionEnvelope "E1" koreanMention :: [messageEnvelope]
        from rfl, hmid]
    decide
  · rw [show [slashCommandEnvelope, mentionEnvelope "E1" koreanMention, messageEnvelope]
        = [slashCommandEnvelope, mentionEnvelope "E1" koreanMention] ++ messageEnvelope :: []
        from rfl, hlast]
    decide
  · rw [show [slashCommandEnvelope, mentionEnvelope "E1" koreanMention, messageEnvelope]
        = [] ++ slashCommandEnvelope :: [mentionEnvelope "E1" koreanMention, messageEnvelope]
        from rfl, hfront]
    decide
  · rw [show [messageEnvelope] = [] ++ messageEnvelope :: [] from rfl, hone]
    decide
  · rw [show [slashCommandEnvelope] = [] ++ slashCommandEnvelope :: [] from rfl, hnone]
    decide

/-- C1 as stated fails: on a queue of a slash-command envelope and a translated
mention `Process` acknowledges the mention only, not every envelope. -/
theorem Process_ack_once_counterexample :
    ackCalls ((botDouble (.ok helloResponse)).Process detectorDouble 0
        [slashCommandEnvelope, mentionEnvelope "E1" koreanMention]).1
      = [(mentionEnvelope "E1" koreanMention).Request] ∧
    ackCalls ((botDouble (.ok helloResponse)).Process detectorDouble 0
        [slashCommandEnvelope, mentionEnvelope "E1" koreanMention]).1
      ≠ [slashCommandEnvelope, mentionEnvelope "E1" koreanMention].map (fun e => e.Request) := by
  decide

/-- C2 fails on the code.  A mention written by a bot leaves no trace at all,
so no `Ack`; a mention whose translation call fails is not acknowledged either;
the same mention with a translation that succeeds is acknowledged. -/
theorem Process_continue_skips_ack :
    (botDouble (.ok helloResponse)).Process detectorDouble 0 [mentionEnvelope "E1" botMention]
      = ([], 0) ∧
    ackCalls ((botDouble (.error refused)).Process detectorDouble 0
      [mentionEnvelope "E2" koreanMention]).1 = [] ∧
    ackCalls ((botDouble (.ok helloResponse)).Process detectorDouble 0
      [mentionEnvelope "E2" koreanMention]).1 = [⟨"events_api", "E2"⟩] := by
  decide

/-- C3.  For every app-mention whose `BotID` is not empty, whatever its text,
channel and timestamps, the trace of `Process` for its envelope holds no HTTP
request and no `PostMessage` call. -/
theorem Process_bot_mention_silent {σ : Type} (wl : whatlanggo) (b : Bot σ) (st : σ)
    (evt : Event) (ev : AppMentionEvent) (hm : evt.mention = some ev) (hb : ev.BotID ≠ "") :
    doCalls (b.Process wl st [evt]).1 = [] ∧ postCalls (b.Process wl st [evt]).1 = [] := by
  rw [Process_singleton, handle_mention wl b st evt ev hm, appMention_bot wl b st ev hb]
  simp [doCalls, postCalls]

/-- C3 at a concrete mention written by the bot `B1`. -/
theorem Process_bot_mention_silent_witness :
    (mentionEnvelope "E1" botMention).mention = some botMention ∧ botMention.BotID ≠ "" ∧
    doCalls ((botDouble (.ok helloResponse)).Process detectorDouble 0
      [mentionEnvelope "E1" botMention]).1 = [] ∧
    postCalls ((botDouble (.ok helloResponse)).Process detectorDouble 0
      [mentionEnvelope "E1" botMention]).1 = [] :=
  ⟨by decide, by decide,
    Process_bot_mention_silent detectorDouble (botDouble (.ok helloResponse)) 0
      (mentionEnvelope "E1" botMention) botMention (by decide) (by decide)⟩

/-- C4.  For every mention not written by a bot, if `Do` answers the request
built for it with an error, the translation call returns that error and the
trace of `Process` for the envelope holds no `PostMessage` call. -/
theorem Process_transport_error_no_reply {σ : Type} (wl : whatlanggo) (b : Bot σ) (st : σ)
    (evt : Event) (ev : AppMentionEvent) (e : Error)
    (hm : evt.mention = some ev) (hb : ev.BotID = "")
    (hdo : (b.client.Do st (if (wl.Detect ev.Text).Lang = wl.Kor
      then b.newRequest "ko" "en" ev.Text else b.newRequest "en" "ko" ev.Text)).1 = .error e) :
    (if (wl.Detect ev.Text).Lang = wl.Kor then b.toEN st ev.Text else b.toKO st ev.Text).1
      = .error e ∧
    postCalls (b.Process wl st [evt]).1 = [] := by
  rw [Process_singleton, handle_mention wl b st evt ev hm, appMention_user wl b st ev hb]
  by_cases hk : (wl.Detect ev.Text).Lang = wl.Kor
  · simp only [hk, if_true] at hdo ⊢
    have ht := translate_do_error b st "ko" "en" ev.Text e hdo
    simp only [Bot.toEN, ht]
    simp [postCalls]
  · simp only [hk, if_false] at hdo ⊢
    have ht := translate_do_error b st "en" "ko" ev.Text e hdo
    simp only [Bot.toKO, ht]
    simp [postCalls]

/-- C4 at a concrete mention, with a client whose connection is refused. -/
theorem Process_transport_error_no_reply_witness :
    ((botDouble (.error refused)).toEN 0 koreanMention.Text).1 = .error refused ∧
    postCalls ((botDouble (.error refused)).Process detectorDouble 0
      [mentionEnvelope "E2" koreanMention]).1 = [] := by
  have h := Process_transport_error_no_reply detectorDouble (botDouble (.error refused)) 0
    (mentionEnvelope "E2" koreanMention) koreanMention refused (by decide) (by decide) (by decide)
  have hk : (detectorDouble.Detect koreanMention.Text).Lang = detectorDouble.Kor := by decide
  simpa only [hk, if_true] using h

/-- C5.  For every mention not written by a bot, with text `t`, the trace of
`Process` for its envelope holds exactly one HTTP request.  Its body is the
encoded form with the fields `source=ko`, `target=en`, `text=t` when the
detector answers Korean for `t`, and `source=en`, `target=ko`, `text=t` for
every other answer; the text field is `t` itself, escaped for transport. -/
theorem Process_translation_request {σ : Type} (wl : whatlanggo) (b : Bot σ) (st : σ)
    (evt : Event) (ev : AppMentionEvent) (hm : evt.mention = some ev) (hb : ev.BotID = "") :
    ((wl.Detect ev.Text).Lang = wl.Kor →
      ∃ req, doCalls (b.Process wl st [evt]).1 = [req] ∧
        req.Body = Values.Encode ⟨[("source", ["ko"]), ("target", ["en"]), ("text", [ev.Text])]⟩ ∧
        req.Body = "source=ko&target=en&text=" ++ QueryEscape ev.Text) ∧
    ((wl.Detect ev.Text).Lang ≠ wl.Kor →
      ∃ req, doCalls (b.Process wl st [evt]).1 = [req] ∧
        req.Body = Values.Encode ⟨[("source", ["en"]), ("target", ["ko"]), ("text", [ev.Text])]⟩ ∧
        req.Body = "source=en&target=ko&text=" ++ QueryEscape ev.Text) := by
  rw [Process_singleton, handle_mention wl b st evt ev hm, appMention_user wl b st ev hb]
  have e1 : "source=" ++ QueryEscape "ko" ++ "&target=" ++ QueryEscape "en" ++ "&text="
      = "source=ko&target=en&text=" := by decide
  have e2 : "source=" ++ QueryEscape "en" ++ "&target=" ++ QueryEscape "ko" ++ "&text="
      = "source=en&target=ko&text=" := by decide
  have h1 : ¬ ("source" = "target") := by decide
  have h2 : ¬ ("source" = "text") := by decide
  have h3 : ¬ ("target" = "text") := by decide
  constructor
  · intro hk
    refine ⟨b.newRequest "ko" "en" ev.Text, ?_, ?_, ?_⟩
    · have ht := (translate_trace b st "ko" "en" ev.Text).1
      simp only [hk, if_true, Bot.toEN]
      generalize b.translate st "ko" "en" ev.Text = t at ht
      obtain ⟨r, effs, st1⟩ := t
      cases r <;> simp_all [doCalls_append, doCalls]
    · simp [Bot.newRequest, Values.Set, Values.empty, setEntry, h1, h2, h3]
    · rw [newRequest_body, e1]
  · intro hk
    refine ⟨b.newRequest "en" "ko" ev.Text, ?_, ?_, ?_⟩
    · have ht := (translate_trace b st "en" "ko" ev.Text).1
      simp only [hk, if_false, Bot.toKO]
      generalize b.translate st "en" "ko" ev.Text = t at ht
      obtain ⟨r, effs, st1⟩ := t
      cases r <;> simp_all [doCalls_append, doCalls]
    · simp [Bot.newRequest, Values.Set, Values.empty, setEntry, h1, h2, h3]
    · rw [newRequest_body, e2]

/-- C5 at the Korean greeting: one request, from `ko` to `en`. -/
theorem Process_translation_request_witness :
    (mentionEnvelope "E1" koreanMention).mention = some koreanMention ∧
    koreanMention.BotID = "" ∧
    (detectorDouble.Detect koreanMention.Text).Lang = detectorDouble.Kor ∧
    ∃ req, doCalls ((botDouble (.ok helloResponse)).Process detectorDouble 0
        [mentionEnvelope "E1" koreanMention]).1 = [req] ∧
      req.Body = Values.Encode ⟨[("source", ["ko"]), ("target", ["en"]), ("text", ["안녕하세요"])]⟩ ∧
      req.Body = "source=ko&target=en&text=" ++ QueryEscape "안녕하세요" :=
  ⟨by decide, by decide, by decide,
    (Process_translation_request detectorDouble (botDouble (.ok helloResponse)) 0
      (mentionEnvelope "E1" koreanMention) koreanMention (by decide) (by decide)).1 (by decide)⟩

/-- C6.  For every mention not written by a bot whose translation succeeds
with text `body`, the trace of `Process` for its envelope holds exactly one
`PostMessage` call: to the mention's channel, with text `body`, in the thread
`ThreadTimeStamp` when that is not empty and `TimeStamp` otherwise. -/
theorem Process_reply_target {σ : Type} (wl : whatlanggo) (b : Bot σ) (st : σ)
    (evt : Event) (ev : AppMentionEvent) (body : String)
    (hm : evt.mention = some ev) (hb : ev.BotID = "")
    (ht : (if (wl.Detect ev.Text).Lang = wl.Kor then b.toEN st ev.Text else b.toKO st ev.Text).1
      = .ok body) :
    postCalls (b.Process wl st [evt]).1 =
      [(ev.Channel, [.MsgOptionText body false,
        .MsgOptionTS (if ev.ThreadTimeStamp ≠ "" then ev.ThreadTimeStamp else ev.TimeStamp)])] := by
  rw [Process_singleton, handle_mention wl b st evt ev hm, appMention_user wl b st ev hb]
  have hp : ∀ src dst, postCalls (b.translate st src dst ev.Text).2.1 = [] :=
    fun src dst => (translate_trace b st src dst ev.Text).2.1
  by_cases hk : (wl.Detect ev.Text).Lang = wl.Kor
  · simp only [hk, if_true, Bot.toEN] at ht ⊢
    have hp := hp "ko" "en"
    generalize b.translate st "ko" "en" ev.Text = t at ht hp
    obtain ⟨r, effs, st1⟩ := t
    simp only at ht
    subst ht
    simp_all [postCalls_append, postCalls]
  · simp only [hk, if_false, Bot.toKO] at ht ⊢
    have hp := hp "en" "ko"
    generalize b.translate st "en" "ko" ev.Text = t at ht hp
    obtain ⟨r, effs, st1⟩ := t
    simp only at ht
    subst ht
    simp_all [postCalls_append, postCalls]

/-- C6 at two concrete mentions: outside a thread the reply is anchored at the
mention's own timestamp `T1`, inside the thread `T0` at `T0`. -/
theorem Process_reply_target_witness :
    postCalls ((botDouble (.ok helloResponse)).Process detectorDouble 0
      [mentionEnvelope "E1" koreanMention]).1
        = [("C1", [.MsgOptionText "Hello" false, .MsgOptionTS "T1"])] ∧
    postCalls ((botDouble (.ok helloResponse)).Process detectorDouble 0
      [mentionEnvelope "E4" threadMention]).1
        = [("C1", [.MsgOptionText "Hello" false, .MsgOptionTS "T0"])] :=
  ⟨Process_reply_target detectorDouble (botDouble (.ok helloResponse)) 0
      (mentionEnvelope "E1" koreanMention) koreanMention "Hello" (by decide) (by decide) (by decide),
    Process_reply_target detectorDouble (botDouble (.ok helloResponse)) 0
      (mentionEnvelope "E4" threadMention) threadMention "Hello" (by decide) (by decide) (by decide)⟩

/-- C7, as amended.  When `Do` delivers a response: if no first JSON value can
be read from its body (bad syntax, early end, nothing but blanks), or that
value does not fit the types of `PapagoResponse`, `translate` returns that
decode error; if the value is an object in which the path message, result,
translatedText leads to no value, `translate` returns the empty string and no
error. -/
theorem translate_decode_outcome {σ : Type} (b : Bot σ) (st : σ) (src dst msg : String)
    (resp : HTTPResponse) (hdo : (b.client.Do st (b.newRequest src dst msg)).1 = .ok resp) :
    (∀ e, readValue resp.Body = .error e → (b.translate st src dst msg).1 = .error e) ∧
    (∀ v e, readValue resp.Body = .ok v → unmarshal v = .error e →
      (b.translate st src dst msg).1 = .error e) ∧
    (∀ v, readValue resp.Body = .ok v → lacks textPath v = true →
      (b.translate st src dst msg).1 = .ok "") := by
  rw [translate_do_ok b st src dst msg resp hdo]
  refine ⟨?_, ?_, ?_⟩
  · intro e he
    simp [Decode, he, Except.map]
  · intro v e hv hu
    simp [Decode, hv, hu, Except.map]
  · intro v hv hl
    simp [Decode, hv, unmarshal_lacks v hl, Except.map, PapagoResponse.zero]

/-- C7 at concrete bodies: a truncated body, an HTML page and a number in the
place of the text are decode errors, the empty object is an empty translation
without error. -/
theorem translate_decode_outcome_witness :
    (readValue truncatedResponse.Body = .error .ErrUnexpectedEOF ∧
      ((botDouble (.ok truncatedResponse)).translate 0 "ko" "en" "안녕하세요").1
        = .error .ErrUnexpectedEOF) ∧
    (readValue htmlResponse.Body
        = .error (.SyntaxError "invalid character looking for beginning of value") ∧
      ((botDouble (.ok htmlResponse)).translate 0 "ko" "en" "안녕하세요").1
        = .error (.SyntaxError "invalid character looking for beginning of value")) ∧
    (Decode wrongTypeResponse.Body = .error (.UnmarshalTypeError "number") ∧
      ((botDouble (.ok wrongTypeResponse)).translate 0 "ko" "en" "안녕하세요").1
        = .error (.UnmarshalTypeError "number")) ∧
    (readValue emptyObjectResponse.Body = .ok (.obj []) ∧ lacks textPath (.obj []) = true ∧
      ((botDouble (.ok emptyObjectResponse)).translate 0 "ko" "en" "안녕하세요").1 = .ok "") :=
  ⟨⟨rfl, (translate_decode_outcome (botDouble (.ok truncatedResponse)) 0 "ko" "en" "안녕하세요"
      truncatedResponse rfl).1 _ rfl⟩,
    ⟨rfl, (translate_decode_outcome (botDouble (.ok htmlResponse)) 0 "ko" "en" "안녕하세요"
      htmlResponse rfl).1 _ rfl⟩,
    ⟨by decide, (translate_decode_outcome (botDouble (.ok wrongTypeResponse)) 0 "ko" "en"
      "안녕하세요" wrongTypeResponse rfl).2.1
        (.obj [("message", .obj [("result", .obj [("translatedText", .num "5")])])]) _ rfl rfl⟩,
    ⟨rfl, by decide,
      (translate_decode_outcome (botDouble (.ok emptyObjectResponse)) 0 "ko" "en" "안녕하세요"
        emptyObjectResponse rfl).2.2 (.obj []) rfl (by decide)⟩⟩

/-- C7 as stated fails: the body `{}` is well-formed JSON without the nested
field, and a body that goes on after its first JSON value is not well-formed
JSON; `translate` returns a string and no error for both. -/
theorem translate_missing_field_counterexample :
    lacks textPath (.obj []) = true ∧
    readValue emptyObjectResponse.Body = .ok (.obj []) ∧
    ((botDouble (.ok emptyObjectResponse)).translate 0 "ko" "en" "안녕하세요").1 = .ok "" ∧
    ((botDouble (.ok trailingTextResponse)).translate 0 "ko" "en" "안녕하세요").1 = .ok "Hello" :=
  ⟨by decide, rfl, by decide, by decide⟩

/-- C8, as amended.  `translate` returns an error exactly when `Do` returns
one or the body of the response fails to decode, and then it is that error;
when the body decodes, `translate` returns the decoded text and no error.  The
status code of the response plays no part. -/
theorem translate_error_iff {σ : Type} (b : Bot σ) (st : σ) (src dst msg : String) :
    (∀ e, (b.translate st src dst msg).1 = .error e ↔
      ((b.client.Do st (b.newRequest src dst msg)).1 = .error e ∨
        ∃ resp, (b.client.Do st (b.newRequest src dst msg)).1 = .ok resp ∧
          Decode resp.Body = .error e)) ∧
    (∀ resp r, (b.client.Do st (b.newRequest src dst msg)).1 = .ok resp →
      Decode resp.Body = .ok r → (b.translate st src dst msg).1 = .ok r.Message.Result.Text) := by
  cases hdo : (b.client.Do st (b.newRequest src dst msg)).1 with
  | error e0 =>
    rw [translate_do_error b st src dst msg e0 hdo]
    simp
  | ok resp =>
    rw [translate_do_ok b st src dst msg resp hdo]
    constructor
    · intro e
      cases hd : Decode resp.Body <;> simp [Except.map, hd]
    · intro resp1 r h1 h2
      simp only [Except.ok.injEq] at h1
      subst h1
      simp [h2, Except.map]

/-- C8 at concrete responses: status 500 with a body that decodes gives the
text, a refused connection gives its error. -/
theorem translate_error_iff_witness :
    (Decode serverErrorResponse.Body = .ok ⟨⟨⟨"Hello"⟩⟩⟩ ∧
      ((botDouble (.ok serverErrorResponse)).translate 0 "ko" "en" "안녕하세요").1 = .ok "Hello") ∧
    ((botDouble (.error refused)).translate 0 "ko" "en" "안녕하세요").1 = .error refused :=
  ⟨⟨by decide,
      (translate_error_iff (botDouble (.ok serverErrorResponse)) 0 "ko" "en" "안녕하세요").2
        serverErrorResponse ⟨⟨⟨"Hello"⟩⟩⟩ rfl (by decide)⟩,
    ((translate_error_iff (botDouble (.error refused)) 0 "ko" "en" "안녕하세요").1 refused).2
      (Or.inl rfl)⟩

/-- C8 as stated fails: a response with status 500 and one with status 401,
both with a body that decodes, make `translate` return a string and no error. -/
theorem translate_status_counterexample :
    serverErrorResponse.StatusCode = 500 ∧
    ((botDouble (.ok serverErrorResponse)).translate 0 "ko" "en" "안녕하세요").1 = .ok "Hello" ∧
    unauthorizedResponse.StatusCode = 401 ∧
    ((botDouble (.ok unauthorizedResponse)).translate 0 "ko" "en" "안녕하세요").1 = .ok "" := by
  decide

/-- C9.  The run of `Process` on a queue `q1 ++ q2` is its run on `q1`
followed by its run on `q2`, the collaborators carrying on from the state `q1`
left them in: the trace is the trace of `q1` followed by the trace of `q2`, so
the effects of each envelope are contiguous and in queue order, and `Process`
itself carries nothing over from one envelope to the next. -/
theorem Process_append {σ : Type} (wl : whatlanggo) (b : Bot σ) (st : σ) (q1 q2 : List Event) :
    b.Process wl st (q1 ++ q2) =
      ((b.Process wl st q1).1 ++ (b.Process wl (b.Process wl st q1).2 q2).1,
        (b.Process wl (b.Process wl st q1).2 q2).2) := by
  induction q1 generalizing st with
  | nil => simp [Bot.Process]
  | cons evt q1 ih => simp [Bot.Process, ih]

/-- C10.  For every mention not written by a bot whose translation succeeds,
the calls of `Process` on the collaborators for its envelope are exactly one
HTTP request, then one `PostMessage`, then one `Ack` of the envelope's
request, whatever `PostMessage` answers; the `Ack` is the last entry of the
trace for that envelope. -/
theorem Process_success_order {σ : Type} (wl : whatlanggo) (b : Bot σ) (st : σ)
    (evt : Event) (ev : AppMentionEvent) (body : String)
    (hm : evt.mention = some ev) (hb : ev.BotID = "")
    (ht : (if (wl.Detect ev.Text).Lang = wl.Kor then b.toEN st ev.Text else b.toKO st ev.Text).1
      = .ok body) :
    calls (b.Process wl st [evt]).1 =
      [.Do (if (wl.Detect ev.Text).Lang = wl.Kor
          then b.newRequest "ko" "en" ev.Text else b.newRequest "en" "ko" ev.Text),
        .PostMessage ev.Channel [.MsgOptionText body false,
          .MsgOptionTS (if ev.ThreadTimeStamp ≠ "" then ev.ThreadTimeStamp else ev.TimeStamp)],
        .Ack evt.Request] ∧
    ∃ before, (b.Process wl st [evt]).1 = before ++ [.Ack evt.Request] := by
  rw [Process_singleton, handle_mention wl b st evt ev hm, appMention_user wl b st ev hb]
  have hp : ∀ src dst, calls (b.translate st src dst ev.Text).2.1
      = [.Do (b.newRequest src dst ev.Text)] :=
    fun src dst => (translate_trace b st src dst ev.Text).2.2.2
  by_cases hk : (wl.Detect ev.Text).Lang = wl.Kor
  · simp only [hk, if_true, Bot.toEN] at ht ⊢
    have hp := hp "ko" "en"
    generalize b.translate st "ko" "en" ev.Text = t at ht hp
    obtain ⟨r, effs, st1⟩ := t
    simp only at ht
    subst ht
    simp only at hp
    refine ⟨?_, _, rfl⟩
    simp only [calls_append, hp]
    simp [calls, Effect.isLog]
  · simp only [hk, if_false, Bot.toKO] at ht ⊢
    have hp := hp "en" "ko"
    generalize b.translate st "en" "ko" ev.Text = t at ht hp
    obtain ⟨r, effs, st1⟩ := t
    simp only at ht
    subst ht
    simp only at hp
    refine ⟨?_, _, rfl⟩
    simp only [calls_append, hp]
    simp [calls, Effect.isLog]

/-- C10 at a concrete mention in a thread, with a `PostMessage` that fails:
request, reply, acknowledgment, in that order and once each. -/
theorem Process_success_order_witness :
    calls ((failingPostDouble (.ok helloResponse)).Process detectorDouble 0
      [mentionEnvelope "E4" threadMention]).1 =
      [.Do ((failingPostDouble (.ok helloResponse)).newRequest "en" "ko" "Hello"),
        .PostMessage "C1" [.MsgOptionText "Hello" false, .MsgOptionTS "T0"],
        .Ack ⟨"events_api", "E4"⟩] :=
  (Process_success_order detectorDouble (failingPostDouble (.ok helloResponse)) 0
    (mentionEnvelope "E4" threadMention) threadMention "Hello"
    (by decide) (by decide) (by decide)).1

end TranslatorBot
